import Mathlib

/-!
Verification development for the dispatch-pipeline engine of the `ada`
repository (src/src/main.rs). The Rust code is shallowly embedded:
mutation of `ReqRespCtx` becomes explicit state passing, `panic!` and
`Option::expect` become `Except Panic`, the `BTreeMap` registry becomes
an association list, and the `Service` trait object becomes a structure
of functions.
-/

set_option autoImplicit false

namespace Ada

/-- Transaction phases, from the `Phase` enum. -/
inductive Phase where
  | RequestHeaders
  | RequestBody
  | ResponseHeaders
  | ResponseBody
  deriving DecidableEq, Repr

/-- A possibly not yet available value, from the `PendingValue` enum. -/
inductive PendingValue (T : Type) where
  | Resolved (value : T)
  | Pending
  deriving DecidableEq, Repr

/-- The transaction context, from the `ReqRespCtx` struct. The shared
mutable phase cell becomes a plain field the host driver updates, and the
field defaults mirror the derived `Default` implementation. -/
structure ReqRespCtx where
  test_token_id : Nat := 0
  test_current_phase : Option Phase := none
  test_predicate_values : List (PendingValue Bool) := []
  status_code : Option Nat := none
  response_headers : List (String × String) := []
  deriving DecidableEq, Repr

/-- The panic-class faults the code can raise, one per `panic!` or
`expect` site in the source. -/
inductive Panic where
  | duplicateToken (token_id : Nat)
  | tokenNotFound (token_id : Nat)
  | predicateEmpty
  deriving DecidableEq, Repr

/-- `ReqRespCtx::next_token_id`: increments the counter and returns it. -/
def ReqRespCtx.next_token_id (ctx : ReqRespCtx) : Nat × ReqRespCtx :=
  (ctx.test_token_id + 1, { ctx with test_token_id := ctx.test_token_id + 1 })

/-- `ReqRespCtx::test_pop_predicate_value`: pops the last scripted value,
panicking when none is left (the `expect` call in the source). -/
def ReqRespCtx.test_pop_predicate_value (ctx : ReqRespCtx) :
    Except Panic (PendingValue Bool × ReqRespCtx) :=
  match ctx.test_predicate_values.getLast? with
  | none => .error .predicateEmpty
  | some v =>
      .ok (v, { ctx with test_predicate_values := ctx.test_predicate_values.dropLast })

/-- The `Service` trait: an external-call capability with `dispatch`
(issues a call, returns a token, may touch the context) and
`parse_message` (interprets raw response bytes as a boolean verdict). -/
structure Service where
  dispatch : ReqRespCtx → Nat × ReqRespCtx
  parse_message : List Nat → Bool

/-- The `FakeService` implementation: `dispatch` allocates the next token
id, `parse_message` checks whether the last byte equals 1. -/
def FakeService : Service where
  dispatch := ReqRespCtx.next_token_id
  parse_message := fun message => message.getLast? == some 1

/-- The `Predicate` struct (no fields in the source). -/
structure Predicate

/-- `Predicate::eval`: delegates to the scripted value stack. -/
def Predicate.eval (_ : Predicate) (ctx : ReqRespCtx) :
    Except Panic (PendingValue Bool × ReqRespCtx) :=
  ctx.test_pop_predicate_value

/-- The task variants: `RLTask`, `AddResponseHeadersTask`, and
`TooManyRequestsTask`, the three implementors of the `Task` trait. -/
inductive Task where
  | RLTask (predicate : Predicate) (service : Service)
      (allow_task : Option Task) (deny_task : Task)
  | AddResponseHeadersTask (headers : List (String × String))
  | TooManyRequestsTask

/-- The `PendingTask` struct: the continuation stored in the registry. -/
structure PendingTask where
  is_blocking : Bool
  allow_task : Option Task
  deny_task : Task
  service : Service

/-- The `TaskOutcome` enum. -/
inductive TaskOutcome where
  | Done
  | Deferred (token_id : Nat) (pending : PendingTask)
  | Pending (task : Task)

/-- `Task::apply` for each variant, exactly as in the source:
`RLTask` evaluates its predicate and dispatches on `Resolved(true)`;
`AddResponseHeadersTask` assigns the headers only during
`ResponseHeaders`; `TooManyRequestsTask` sets status 429. -/
def Task.apply : Task → ReqRespCtx → Except Panic (TaskOutcome × ReqRespCtx)
  | .RLTask predicate service allow_task deny_task, ctx =>
      match predicate.eval ctx with
      | .error e => .error e
      | .ok (.Resolved exec, ctx1) =>
          if exec then
            let r := service.dispatch ctx1
            .ok (.Deferred r.1
              { is_blocking := true, allow_task := allow_task,
                deny_task := deny_task, service := service }, r.2)
          else
            .ok (.Done, ctx1)
      | .ok (.Pending, ctx1) =>
          .ok (.Pending (.RLTask predicate service allow_task deny_task), ctx1)
  | .AddResponseHeadersTask headers, ctx =>
      if ctx.test_current_phase = some .ResponseHeaders then
        .ok (.Done, { ctx with response_headers := headers })
      else
        .ok (.Pending (.AddResponseHeadersTask headers), ctx)
  | .TooManyRequestsTask, ctx =>
      .ok (.Done, { ctx with status_code := some 429 })

/-- `PendingTask::process_response`: a true verdict yields the deny
follow-up, otherwise the allow follow-up when present. -/
def PendingTask.process_response (pt : PendingTask) (response : List Nat) :
    Option Task :=
  if pt.service.parse_message response then
    some pt.deny_task
  else
    match pt.allow_task with
    | some action => some action
    | none => none

/-- The pending-call registry, `BTreeMap<usize, PendingTask>`, embedded
as an association list with unique keys. -/
abbrev PendingMap := List (Nat × PendingTask)

/-- `BTreeMap::insert`: returns the previous value for the key, if any,
together with the updated map. -/
def mapInsert : PendingMap → Nat → PendingTask → Option PendingTask × PendingMap
  | [], k, v => (none, [(k, v)])
  | (k1, v1) :: rest, k, v =>
      if k = k1 then
        (some v1, (k, v) :: rest)
      else
        let r := mapInsert rest k v
        (r.1, (k1, v1) :: r.2)

/-- `BTreeMap::remove`: returns the removed value, if any, together with
the updated map. -/
def mapRemove : PendingMap → Nat → Option PendingTask × PendingMap
  | [], _ => (none, [])
  | (k1, v1) :: rest, k =>
      if k = k1 then
        (some v1, rest)
      else
        let r := mapRemove rest k
        (r.1, (k1, v1) :: r.2)

/-- Lookup in the registry (`BTreeMap::get`-style view used by the
specification-side definitions). -/
def mapFind : PendingMap → Nat → Option PendingTask
  | [], _ => none
  | (k1, v1) :: rest, k => if k = k1 then some v1 else mapFind rest k

/-- Erasure of a key from the registry, the removal half of `mapRemove`. -/
def mapErase : PendingMap → Nat → PendingMap
  | [], _ => []
  | (k1, v1) :: rest, k => if k = k1 then rest else (k1, v1) :: mapErase rest k

/-- The `Pipeline` struct: context, work queue, pending-call registry. -/
structure Pipeline where
  ctx : ReqRespCtx
  todos : List Task
  pending_tasks : PendingMap

/-- The drain loop inside `Pipeline::eval`: attempts each task in queue
order, discards `Done`, registers `Deferred` (duplicate keys are the
panic at line 50), and pushes `Pending` tasks onto the next queue. -/
def evalLoop : List Task → ReqRespCtx → PendingMap → List Task →
    Except Panic (ReqRespCtx × PendingMap × List Task)
  | [], ctx, pending, acc => .ok (ctx, pending, acc)
  | task :: rest, ctx, pending, acc =>
      match task.apply ctx with
      | .error e => .error e
      | .ok (.Done, ctx1) => evalLoop rest ctx1 pending acc
      | .ok (.Deferred token_id pt, ctx1) =>
          if (mapInsert pending token_id pt).1.isSome then
            .error (.duplicateToken token_id)
          else
            evalLoop rest ctx1 (mapInsert pending token_id pt).2 acc
      | .ok (.Pending action, ctx1) => evalLoop rest ctx1 pending (acc ++ [action])

/-- `Pipeline::eval`: one pass over the queue; `.ok none` is the
Quiescent return (`None` in the source), `.ok (some p)` is Active. -/
def Pipeline.eval (p : Pipeline) : Except Panic (Option Pipeline) :=
  match evalLoop p.todos p.ctx p.pending_tasks [] with
  | .error e => .error e
  | .ok (ctx, pending, todos) =>
      if pending.isEmpty && todos.isEmpty then
        .ok none
      else
        .ok (some { ctx := ctx, todos := todos, pending_tasks := pending })

/-- The body of `Pipeline::digest` after a successful removal: resolve
the continuation against the response and route any follow-up outcome
exactly as the eval loop does; `m` is the registry after the removal. -/
def digestFollowUp (p : Pipeline) (m : PendingMap) (pending : PendingTask)
    (response : List Nat) : Except Panic Pipeline :=
  match pending.process_response response with
  | none => .ok { p with pending_tasks := m }
  | some action =>
      match action.apply p.ctx with
      | .error e => .error e
      | .ok (.Done, ctx1) => .ok { p with ctx := ctx1, pending_tasks := m }
      | .ok (.Deferred tok pt, ctx1) =>
          if (mapInsert m tok pt).1.isSome then
            .error (.duplicateToken tok)
          else
            .ok { p with ctx := ctx1, pending_tasks := (mapInsert m tok pt).2 }
      | .ok (.Pending action1, ctx1) =>
          .ok { p with
            ctx := ctx1
            todos := p.todos ++ [action1]
            pending_tasks := m }

/-- `Pipeline::digest`: removes the continuation for the token
(panicking when absent, the source line 79), then processes it via
`digestFollowUp`. -/
def Pipeline.digest (p : Pipeline) (token_id : Nat) (response : List Nat) :
    Except Panic Pipeline :=
  match (mapRemove p.pending_tasks token_id).1 with
  | none => .error (.tokenNotFound token_id)
  | some pending =>
      digestFollowUp p (mapRemove p.pending_tasks token_id).2 pending response

/-- `Pipeline::is_blocked`: true iff some registered continuation has
its blocking flag set. -/
def Pipeline.is_blocked (p : Pipeline) : Bool :=
  p.pending_tasks.any fun kv => kv.2.is_blocking

/-- One host phase callback, following the external-interface section of
the spec: the host stores the current phase in the shared cell the
context holds, then calls evaluate once. -/
def hostStep (ph : Option Phase) (p : Pipeline) : Except Panic (Option Pipeline) :=
  Pipeline.eval { p with ctx := { p.ctx with test_current_phase := ph } }

/-- A sequence of host phase callbacks; a Quiescent result stops the
run, since callers discard a Quiescent pipeline. -/
def hostRun : List (Option Phase) → Pipeline → Except Panic (Option Pipeline)
  | [], p => .ok (some p)
  | ph :: rest, p =>
      match hostStep ph p with
      | .error e => .error e
      | .ok none => .ok none
      | .ok (some p1) => hostRun rest p1

/-- One step of the evaluate pass as the spec words it: attempt the
task, discard a Done result, register a Deferred result (duplicate-token
insertion is a fatal error), collect a Pending result into the next
work queue. -/
def stepSpec (s : ReqRespCtx × PendingMap × List Task) (task : Task) :
    Except Panic (ReqRespCtx × PendingMap × List Task) :=
  match task.apply s.1 with
  | .error e => .error e
  | .ok (.Done, ctx1) => .ok (ctx1, s.2.1, s.2.2)
  | .ok (.Deferred token_id pt, ctx1) =>
      match mapFind s.2.1 token_id with
      | some _ => .error (.duplicateToken token_id)
      | none => .ok (ctx1, s.2.1 ++ [(token_id, pt)], s.2.2)
  | .ok (.Pending action, ctx1) => .ok (ctx1, s.2.1, s.2.2 ++ [action])

/-- Specification-side rendering of one evaluate pass, following the
spec text: drain the queue once in order, route every outcome, replace
the work queue at the end, and report Quiescent exactly when both the
new queue and the registry are empty. -/
def evalSpec (p : Pipeline) : Except Panic (Option Pipeline) :=
  match List.foldlM stepSpec (p.ctx, p.pending_tasks, []) p.todos with
  | .error e => .error e
  | .ok (ctx, pending, todos) =>
      .ok (if pending.isEmpty && todos.isEmpty then none
           else some { ctx := ctx, todos := todos, pending_tasks := pending })

/-- Specification-side rendering of resume: look up and remove the
continuation for the token (absence is a fatal error), resolve it, and
attempt any follow-up task against the pipeline context, routing its
outcome exactly as one step of the evaluate pass would, with the live
work queue as the queue the Pending outcome is appended to. -/
def resumeSpec (p : Pipeline) (token_id : Nat) (response : List Nat) :
    Except Panic Pipeline :=
  match mapFind p.pending_tasks token_id with
  | none => .error (.tokenNotFound token_id)
  | some pending =>
      match pending.process_response response with
      | none => .ok { p with pending_tasks := mapErase p.pending_tasks token_id }
      | some action =>
          match stepSpec (p.ctx, mapErase p.pending_tasks token_id, p.todos) action with
          | .error e => .error e
          | .ok (ctx1, m1, todos1) =>
              .ok { ctx := ctx1, todos := todos1, pending_tasks := m1 }

/-- A registered continuation whose deny follow-up is itself a
conditional-dispatch task, used to exhibit a resume panic with the
token present. -/
def pendC2 : PendingTask where
  is_blocking := true
  allow_task := none
  deny_task := .RLTask ⟨⟩ FakeService none .TooManyRequestsTask
  service := FakeService

/-- A pipeline holding token 1 with continuation `pendC2` and an empty
scripted predicate stack. -/
def pipeC2 : Pipeline where
  ctx := {}
  todos := []
  pending_tasks := [(1, pendC2)]

/-- A pipeline holding one blocking continuation for token 1 whose deny
follow-up is the terminal-status task. -/
def pipeW2 : Pipeline where
  ctx := { test_token_id := 1 }
  todos := []
  pending_tasks :=
    [(1, { is_blocking := true, allow_task := none,
           deny_task := .TooManyRequestsTask, service := FakeService })]

/-- The pipeline `pipeW2` after resuming token 1 with a deny verdict. -/
def pipeW2b : Pipeline where
  ctx := { test_token_id := 1, status_code := some 429 }
  todos := []
  pending_tasks := []

/-- The Scenario A pipeline: one conditional-dispatch task whose
predicate is scripted to resolve true, deny follow-up sets status 429. -/
def pipeA : Pipeline where
  ctx := { test_predicate_values := [.Resolved true] }
  todos := [.RLTask ⟨⟩ FakeService none .TooManyRequestsTask]
  pending_tasks := []

/-- The Scenario A pipeline after the first evaluate pass: token 1 is
registered with a blocking continuation. -/
def pipeA1 : Pipeline where
  ctx := { test_token_id := 1 }
  todos := []
  pending_tasks :=
    [(1, { is_blocking := true, allow_task := none,
           deny_task := .TooManyRequestsTask, service := FakeService })]

/-- The Scenario A pipeline after resuming token 1 with a true verdict. -/
def pipeA2 : Pipeline where
  ctx := { test_token_id := 1, status_code := some 429 }
  todos := []
  pending_tasks := []

/-- A context scripted to resolve the next predicate to true. -/
def ctxW4 : ReqRespCtx := { test_predicate_values := [.Resolved true] }

/-- A continuation whose deny follow-up is the terminal-status task. -/
def ptW5 : PendingTask where
  is_blocking := true
  allow_task := none
  deny_task := .TooManyRequestsTask
  service := FakeService

/-- A pipeline whose only queued task is a mutate-response task, with no
conditional-dispatch task anywhere and the phase away from
ResponseHeaders. -/
def pipeC7 : Pipeline where
  ctx := {}
  todos := [.AddResponseHeadersTask [("X-RateLimit-Limit", "10")]]
  pending_tasks := []

/-- A pipeline with one conditional-dispatch task scripted to resolve
false. -/
def pipeW7 : Pipeline where
  ctx := { test_predicate_values := [.Resolved false] }
  todos := [.RLTask ⟨⟩ FakeService none .TooManyRequestsTask]
  pending_tasks := []

/-- A context scripted with one resolving predicate value, used to show
that predicate evaluation consumes it. -/
def ctxC8 : ReqRespCtx := { test_predicate_values := [.Resolved true] }

/-- A context in the ResponseHeaders phase that has already accumulated
one response-header mutation. -/
def ctxC9 : ReqRespCtx where
  test_current_phase := some .ResponseHeaders
  response_headers := [("a", "b")]

/-- A service allocates fresh tokens when its dispatch is exactly the
context token counter, as in `FakeService`. -/
def Service.isFresh (s : Service) : Prop :=
  ∀ ctx, s.dispatch ctx = ctx.next_token_id

/-- Every service reachable from a task allocates tokens from the
context counter. -/
inductive Task.FreshTokens : Task → Prop where
  | rl (pr : Predicate) (s : Service) (a : Option Task) (d : Task)
      (hs : s.isFresh)
      (ha : ∀ t, a = some t → Task.FreshTokens t)
      (hd : Task.FreshTokens d) :
      Task.FreshTokens (.RLTask pr s a d)
  | addHeaders (headers : List (String × String)) :
      Task.FreshTokens (.AddResponseHeadersTask headers)
  | tooMany : Task.FreshTokens .TooManyRequestsTask

/-- Every service reachable from a registered continuation allocates
tokens from the context counter. -/
def PendingTask.freshTokens (pt : PendingTask) : Prop :=
  pt.service.isFresh ∧
  (∀ t, pt.allow_task = some t → t.FreshTokens) ∧
  pt.deny_task.FreshTokens

/-- The reachable-state invariant for claim C10: every registered token
is at most the context counter, and every service in the pipeline
allocates from the counter. -/
def PipelineInv (p : Pipeline) : Prop :=
  (∀ kv ∈ p.pending_tasks, kv.1 ≤ p.ctx.test_token_id ∧ kv.2.freshTokens) ∧
  (∀ t ∈ p.todos, t.FreshTokens)

/-- What one successful attempt does to the token counter: Done and
Pending leave it unchanged, Deferred advances it by one and hands out
exactly the advanced value. -/
def FreshOutcome (ctx ctx1 : ReqRespCtx) : TaskOutcome → Prop
  | .Done => ctx1.test_token_id = ctx.test_token_id
  | .Pending t2 => ctx1.test_token_id = ctx.test_token_id ∧ t2.FreshTokens
  | .Deferred k pt => ctx1.test_token_id = ctx.test_token_id + 1 ∧
      k = ctx.test_token_id + 1 ∧ pt.freshTokens

/-- A fresh pipeline with one conditional-dispatch task over the token
allocating service. -/
def pipeW10 : Pipeline where
  ctx := {}
  todos := [.RLTask ⟨⟩ FakeService none .TooManyRequestsTask]
  pending_tasks := []

theorem exceptBind_ok {α β : Type} (a : α) (f : α → Except Panic β) :
    (Except.ok a >>= f) = f a := rfl

theorem exceptBind_error {α β : Type} (e : Panic) (f : α → Except Panic β) :
    ((Except.error e : Except Panic α) >>= f) = .error e := rfl

theorem mapInsert_fst (m : PendingMap) (k : Nat) (v : PendingTask) :
    (mapInsert m k v).1 = mapFind m k := by
  induction m with
  | nil => rfl
  | cons kv rest ih =>
      obtain ⟨k1, v1⟩ := kv
      simp only [mapInsert, mapFind]
      split
      · rfl
      · exact ih

theorem mapInsert_snd_of_find_none (m : PendingMap) (k : Nat) (v : PendingTask)
    (h : mapFind m k = none) : (mapInsert m k v).2 = m ++ [(k, v)] := by
  induction m with
  | nil => rfl
  | cons kv rest ih =>
      obtain ⟨k1, v1⟩ := kv
      simp only [mapFind] at h
      simp only [mapInsert]
      split
      · simp_all
      · simp_all

theorem mapRemove_eq (m : PendingMap) (k : Nat) :
    mapRemove m k = (mapFind m k, mapErase m k) := by
  induction m with
  | nil => rfl
  | cons kv rest ih =>
      obtain ⟨k1, v1⟩ := kv
      simp only [mapRemove, mapFind, mapErase]
      split
      · rfl
      · simp [ih]

theorem mapRemove_fst (m : PendingMap) (k : Nat) :
    (mapRemove m k).1 = mapFind m k := by
  rw [mapRemove_eq]

theorem mapRemove_snd (m : PendingMap) (k : Nat) :
    (mapRemove m k).2 = mapErase m k := by
  rw [mapRemove_eq]

theorem mapFind_eq_none (m : PendingMap) (k : Nat)
    (h : ∀ kv ∈ m, kv.1 ≠ k) : mapFind m k = none := by
  induction m with
  | nil => rfl
  | cons kv rest ih =>
      obtain ⟨k1, v1⟩ := kv
      simp only [mapFind]
      split
      · next heq => exact absurd heq.symm (h (k1, v1) (by simp))
      · exact ih fun kv hkv => h kv (by simp [hkv])

theorem mapFind_some_mem (m : PendingMap) (k : Nat) (v : PendingTask)
    (h : mapFind m k = some v) : (k, v) ∈ m := by
  induction m with
  | nil => simp [mapFind] at h
  | cons kv rest ih =>
      obtain ⟨k1, v1⟩ := kv
      simp only [mapFind] at h
      by_cases hk : k = k1
      · simp [hk] at h
        simp [hk, h]
      · simp [hk] at h
        simp [ih h]

theorem mapErase_mem (m : PendingMap) (k : Nat) (kv : Nat × PendingTask)
    (h : kv ∈ mapErase m k) : kv ∈ m := by
  induction m with
  | nil => simp [mapErase] at h
  | cons kv1 rest ih =>
      obtain ⟨k1, v1⟩ := kv1
      simp only [mapErase] at h
      by_cases hk : k = k1
      · simp [hk] at h
        simp [h]
      · simp [hk] at h
        cases h with
        | inl h => simp [h]
        | inr h => simp [ih h]

theorem mapErase_length (m : PendingMap) (k : Nat) (v : PendingTask)
    (h : mapFind m k = some v) : (mapErase m k).length + 1 = m.length := by
  induction m with
  | nil => simp [mapFind] at h
  | cons kv rest ih =>
      obtain ⟨k1, v1⟩ := kv
      simp only [mapFind] at h
      simp only [mapErase]
      by_cases hk : k = k1
      · simp [hk]
      · simp [hk] at h
        simp [hk, ← ih h]

theorem mapInsert_length_of_find_none (m : PendingMap) (k : Nat) (v : PendingTask)
    (h : mapFind m k = none) : (mapInsert m k v).2.length = m.length + 1 := by
  rw [mapInsert_snd_of_find_none m k v h]
  simp

theorem evalLoop_eq_foldlM (tasks : List Task) :
    ∀ ctx pending acc,
      evalLoop tasks ctx pending acc =
        List.foldlM stepSpec (ctx, pending, acc) tasks := by
  induction tasks with
  | nil => intro ctx pending acc; rfl
  | cons t rest ih =>
      intro ctx pending acc
      rw [List.foldlM_cons]
      cases h : t.apply ctx with
      | error e =>
          simp only [evalLoop, stepSpec, h, exceptBind_error]
      | ok res =>
          obtain ⟨o, ctx1⟩ := res
          cases o with
          | Done =>
              simp only [evalLoop, stepSpec, h, exceptBind_ok]
              exact ih ctx1 pending acc
          | Deferred tok pt =>
              cases hf : mapFind pending tok with
              | some v =>
                  simp only [evalLoop, stepSpec, h, mapInsert_fst, hf,
                    Option.isSome_some, if_true, exceptBind_ok, exceptBind_error]
              | none =>
                  simp only [evalLoop, stepSpec, h, mapInsert_fst, hf,
                    Option.isSome_none, Bool.false_eq_true, if_false, exceptBind_ok,
                    mapInsert_snd_of_find_none pending tok pt hf]
                  exact ih ctx1 (pending ++ [(tok, pt)]) acc
          | Pending a =>
              simp only [evalLoop, stepSpec, h, exceptBind_ok]
              exact ih ctx1 pending (acc ++ [a])

theorem apply_error (t : Task) (ctx : ReqRespCtx) (e : Panic)
    (h : t.apply ctx = .error e) : e = .predicateEmpty := by
  cases t with
  | RLTask pr s a d =>
      simp only [Task.apply, Predicate.eval, ReqRespCtx.test_pop_predicate_value] at h
      cases hg : ctx.test_predicate_values.getLast? with
      | none =>
          rw [hg] at h
          exact (Except.error.inj h).symm
      | some v =>
          rw [hg] at h
          cases v with
          | Resolved b => cases b <;> simp at h
          | Pending => simp at h
  | AddResponseHeadersTask hs =>
      simp only [Task.apply] at h
      split at h <;> simp at h
  | TooManyRequestsTask => simp [Task.apply] at h

theorem digest_eq_resumeSpec (p : Pipeline) (tok : Nat) (r : List Nat) :
    p.digest tok r = resumeSpec p tok r := by
  unfold Pipeline.digest resumeSpec
  rw [mapRemove_fst, mapRemove_snd]
  cases hf : mapFind p.pending_tasks tok with
  | none => rfl
  | some pt =>
      dsimp only
      unfold digestFollowUp
      cases hpr : pt.process_response r with
      | none => rfl
      | some a =>
          dsimp only
          unfold stepSpec
          try dsimp only
          cases ha : a.apply p.ctx with
          | error e => rfl
          | ok res =>
              obtain ⟨o, ctx1⟩ := res
              try dsimp only
              cases o with
              | Done => rfl
              | Pending a1 => rfl
              | Deferred tok2 pt2 =>
                  try dsimp only
                  cases hf2 : mapFind (mapErase p.pending_tasks tok) tok2 with
                  | some v => simp [mapInsert_fst, hf2]
                  | none =>
                      simp [mapInsert_fst, hf2,
                        mapInsert_snd_of_find_none _ _ _ hf2]

theorem digest_notFound_iff (p : Pipeline) (tok : Nat) (r : List Nat) :
    (p.digest tok r = .error (.tokenNotFound tok)) ↔
      mapFind p.pending_tasks tok = none := by
  unfold Pipeline.digest
  rw [mapRemove_fst, mapRemove_snd]
  cases hf : mapFind p.pending_tasks tok with
  | none => simp
  | some pt =>
      simp only [reduceCtorEq, iff_false]
      unfold digestFollowUp
      cases hpr : pt.process_response r with
      | none => simp
      | some a =>
          cases ha : a.apply p.ctx with
          | error e =>
              have he := apply_error a p.ctx e ha
              subst he
              simp [ha]
          | ok res =>
              obtain ⟨o, ctx1⟩ := res
              cases o with
              | Done => simp [ha]
              | Pending a1 => simp [ha]
              | Deferred tok2 pt2 =>
                  by_cases h2 :
                      (mapInsert (mapErase p.pending_tasks tok) tok2 pt2).1.isSome = true
                  · simp [ha, h2]
                  · simp [ha, h2]

theorem digest_size (p : Pipeline) (tok : Nat) (r : List Nat) (p1 : Pipeline)
    (h : p.digest tok r = .ok p1) :
    p1.pending_tasks.length + 1 = p.pending_tasks.length ∨
      p1.pending_tasks.length = p.pending_tasks.length := by
  unfold Pipeline.digest at h
  rw [mapRemove_fst, mapRemove_snd] at h
  cases hf : mapFind p.pending_tasks tok with
  | none => simp [hf] at h
  | some pt =>
      simp only [hf] at h
      unfold digestFollowUp at h
      have herase := mapErase_length p.pending_tasks tok pt hf
      cases hpr : pt.process_response r with
      | none =>
          simp only [hpr] at h
          cases h
          exact Or.inl herase
      | some a =>
          simp only [hpr] at h
          cases ha : a.apply p.ctx with
          | error e => simp [ha] at h
          | ok res =>
              obtain ⟨o, ctx1⟩ := res
              simp only [ha] at h
              cases o with
              | Done =>
                  cases h
                  exact Or.inl herase
              | Pending a1 =>
                  cases h
                  exact Or.inl herase
              | Deferred tok2 pt2 =>
                  cases hf2 : mapFind (mapErase p.pending_tasks tok) tok2 with
                  | some v => simp [mapInsert_fst, hf2] at h
                  | none =>
                      simp only [mapInsert_fst, hf2, Option.isSome_none,
                        Bool.false_eq_true, if_false] at h
                      cases h
                      refine Or.inr ?_
                      simp only [mapInsert_length_of_find_none _ _ _ hf2]
                      exact herase

/-- Claim C2 counterexample: resume can panic even though the token is
present in the registry. With token 1 registered and the scripted
predicate stack empty, digest(1, [1]) resolves to the deny follow-up,
whose predicate evaluation hits the Expected-a-value panic; so the
claim that digest panics only when the token is absent is false. -/
theorem c2_panic_with_token_present :
    (mapFind pipeC2.pending_tasks 1).isSome = true ∧
    pipeC2.digest 1 [1] = .error .predicateEmpty := ⟨rfl, rfl⟩

/-- Claim C2 (amended): digest panics with a token-not-found fault
exactly when the token has no registry entry; when the token is present
it removes exactly that entry, resolves the continuation, and routes
any follow-up outcome exactly as evaluate would (stated as equality
with the specification-side resume), though that routing may itself
panic; and whenever digest returns normally the registry size equals
the size before minus one plus the number of new Deferred outcomes it
directly produced (zero or one). -/
theorem c2_resume_matches_spec (p : Pipeline) (tok : Nat) (r : List Nat) :
    ((p.digest tok r = .error (.tokenNotFound tok)) ↔
      mapFind p.pending_tasks tok = none) ∧
    p.digest tok r = resumeSpec p tok r ∧
    (∀ p1, p.digest tok r = .ok p1 →
      p1.pending_tasks.length + 1 = p.pending_tasks.length ∨
        p1.pending_tasks.length = p.pending_tasks.length) :=
  ⟨digest_notFound_iff p tok r, digest_eq_resumeSpec p tok r,
    fun p1 h => digest_size p tok r p1 h⟩

theorem c2_resume_witness :
    pipeW2.digest 1 [1] = .ok pipeW2b ∧
    (pipeW2b.pending_tasks.length + 1 = pipeW2.pending_tasks.length ∨
      pipeW2b.pending_tasks.length = pipeW2.pending_tasks.length) :=
  ⟨rfl, (c2_resume_matches_spec pipeW2 1 [1]).2.2 pipeW2b rfl⟩

/-- Claim C3: in the deny scenario, the first evaluate pass leaves the
pipeline Active and blocked; resuming the dispatched token 1 with bytes
indicating a true verdict unblocks the pipeline and sets status 429. -/
theorem c3_deny_scenario :
    pipeA.eval = .ok (some pipeA1) ∧
    pipeA1.is_blocked = true ∧
    pipeA1.digest 1 [1] = .ok pipeA2 ∧
    pipeA2.is_blocked = false ∧
    pipeA2.ctx.status_code = some 429 :=
  ⟨rfl, rfl, rfl, rfl, rfl⟩

theorem mem_of_getLast?_eq {α : Type} {l : List α} {a : α}
    (h : l.getLast? = some a) : a ∈ l := by
  obtain ⟨hne, heq⟩ := List.mem_getLast?_eq_getLast (Option.mem_def.mpr h)
  rw [heq]
  exact List.getLast_mem hne

/-- Claim C4: for every conditional-dispatch task, attempt returns Done
when the predicate resolves false; on a true resolution it makes exactly
one dispatch call on the service capability, and the outcome is
Deferred with the dispatched token and a blocking continuation carrying
the allow follow-up, the deny follow-up and the service capability; and
on a Pending predicate it returns Pending with the task unchanged. -/
theorem c4_rltask_attempt (pr : Predicate) (service : Service)
    (allow_task : Option Task) (deny_task : Task) (ctx : ReqRespCtx) :
    (∀ ctx1, pr.eval ctx = .ok (.Resolved false, ctx1) →
      (Task.RLTask pr service allow_task deny_task).apply ctx = .ok (.Done, ctx1)) ∧
    (∀ ctx1, pr.eval ctx = .ok (.Resolved true, ctx1) →
      (Task.RLTask pr service allow_task deny_task).apply ctx =
        .ok (.Deferred (service.dispatch ctx1).1
          { is_blocking := true, allow_task := allow_task,
            deny_task := deny_task, service := service },
          (service.dispatch ctx1).2)) ∧
    (∀ ctx1, pr.eval ctx = .ok (.Pending, ctx1) →
      (Task.RLTask pr service allow_task deny_task).apply ctx =
        .ok (.Pending (.RLTask pr service allow_task deny_task), ctx1)) := by
  refine ⟨fun ctx1 h => ?_, fun ctx1 h => ?_, fun ctx1 h => ?_⟩ <;>
    simp [Task.apply, h]

theorem c4_rltask_attempt_witness :
    Predicate.eval ⟨⟩ ctxW4 = .ok (.Resolved true, ({} : ReqRespCtx)) ∧
    (Task.RLTask ⟨⟩ FakeService none .TooManyRequestsTask).apply ctxW4 =
      .ok (.Deferred (FakeService.dispatch {}).1
        { is_blocking := true, allow_task := none,
          deny_task := .TooManyRequestsTask, service := FakeService },
        (FakeService.dispatch {}).2) :=
  ⟨rfl,
    (c4_rltask_attempt ⟨⟩ FakeService none .TooManyRequestsTask ctxW4).2.1 {} rfl⟩

/-- Claim C5: resolving a continuation yields the deny follow-up when
the service capability reads the response as a true verdict, the allow
follow-up when the verdict is false and one exists, and nothing when
the verdict is false and there is no allow follow-up. -/
theorem c5_process_response_cases (pt : PendingTask) (response : List Nat) :
    (pt.service.parse_message response = true →
      pt.process_response response = some pt.deny_task) ∧
    (∀ a, pt.service.parse_message response = false → pt.allow_task = some a →
      pt.process_response response = some a) ∧
    (pt.service.parse_message response = false → pt.allow_task = none →
      pt.process_response response = none) := by
  refine ⟨fun h => ?_, fun a h ha => ?_, fun h ha => ?_⟩
  · simp [PendingTask.process_response, h]
  · simp [PendingTask.process_response, h, ha]
  · simp [PendingTask.process_response, h, ha]

theorem c5_process_response_witness :
    ptW5.service.parse_message [1] = true ∧
    ptW5.process_response [1] = some ptW5.deny_task :=
  ⟨rfl, (c5_process_response_cases ptW5 [1]).1 rfl⟩

theorem hostRun_gating (headers : List (String × String)) (pending : PendingMap) :
    ∀ (phases : List (Option Phase)) (ctx : ReqRespCtx),
      (∀ ph ∈ phases, ph ≠ some Phase.ResponseHeaders) →
      ∃ ctx1,
        hostRun phases
            { ctx := ctx
              todos := [Task.AddResponseHeadersTask headers]
              pending_tasks := pending } =
          .ok (some
            { ctx := ctx1
              todos := [Task.AddResponseHeadersTask headers]
              pending_tasks := pending }) ∧
        ctx1.response_headers = ctx.response_headers ∧
        ctx1.status_code = ctx.status_code ∧
        ctx1.test_predicate_values = ctx.test_predicate_values ∧
        ctx1.test_token_id = ctx.test_token_id := by
  intro phases
  induction phases with
  | nil =>
      intro ctx _
      exact ⟨ctx, rfl, rfl, rfl, rfl, rfl⟩
  | cons ph rest ih =>
      intro ctx h
      have hph : ph ≠ some Phase.ResponseHeaders := h ph (by simp)
      obtain ⟨ctx1, hrun, h1, h2, h3, h4⟩ :=
        ih { ctx with test_current_phase := ph } fun q hq => h q (by simp [hq])
      refine ⟨ctx1, ?_, h1, h2, h3, h4⟩
      have hstep : hostStep ph
          { ctx := ctx
            todos := [Task.AddResponseHeadersTask headers]
            pending_tasks := pending } =
          .ok (some
            { ctx := { ctx with test_current_phase := ph }
              todos := [Task.AddResponseHeadersTask headers]
              pending_tasks := pending }) := by
        unfold hostStep Pipeline.eval
        simp [evalLoop, Task.apply, hph]
      unfold hostRun
      rw [hstep]
      exact hrun

/-- Claim C6: a mutate-response task applies its mutation and completes
only when the context phase is ResponseHeaders; in every other phase it
returns Pending with itself and leaves the context untouched, so a
pipeline carrying it survives any sequence of host phase callbacks that
avoid ResponseHeaders with no observable context mutation. -/
theorem c6_phase_gating (headers : List (String × String)) (ctx : ReqRespCtx) :
    (ctx.test_current_phase = some Phase.ResponseHeaders →
      (Task.AddResponseHeadersTask headers).apply ctx =
        .ok (.Done, { ctx with response_headers := headers })) ∧
    (ctx.test_current_phase ≠ some Phase.ResponseHeaders →
      (Task.AddResponseHeadersTask headers).apply ctx =
        .ok (.Pending (.AddResponseHeadersTask headers), ctx)) ∧
    (∀ (phases : List (Option Phase)) (pending : PendingMap),
      (∀ ph ∈ phases, ph ≠ some Phase.ResponseHeaders) →
      ∃ ctx1,
        hostRun phases
            { ctx := ctx
              todos := [Task.AddResponseHeadersTask headers]
              pending_tasks := pending } =
          .ok (some
            { ctx := ctx1
              todos := [Task.AddResponseHeadersTask headers]
              pending_tasks := pending }) ∧
        ctx1.response_headers = ctx.response_headers ∧
        ctx1.status_code = ctx.status_code ∧
        ctx1.test_predicate_values = ctx.test_predicate_values ∧
        ctx1.test_token_id = ctx.test_token_id) := by
  refine ⟨fun h => ?_, fun h => ?_, fun phases pending h => ?_⟩
  · simp [Task.apply, h]
  · simp [Task.apply, h]
  · exact hostRun_gating headers pending phases ctx h

theorem c6_phase_gating_witness :
    (({} : ReqRespCtx).test_current_phase ≠ some Phase.ResponseHeaders) ∧
    (∀ ph ∈ [some Phase.RequestHeaders, some Phase.RequestBody],
      ph ≠ some Phase.ResponseHeaders) ∧
    (∃ ctx1,
        hostRun [some Phase.RequestHeaders, some Phase.RequestBody]
            { ctx := {}
              todos := [Task.AddResponseHeadersTask [("X-RateLimit-Limit", "10")]]
              pending_tasks := [] } =
          .ok (some
            { ctx := ctx1
              todos := [Task.AddResponseHeadersTask [("X-RateLimit-Limit", "10")]]
              pending_tasks := [] }) ∧
        ctx1.response_headers = ({} : ReqRespCtx).response_headers ∧
        ctx1.status_code = ({} : ReqRespCtx).status_code ∧
        ctx1.test_predicate_values = ({} : ReqRespCtx).test_predicate_values ∧
        ctx1.test_token_id = ({} : ReqRespCtx).test_token_id) :=
  ⟨by decide, by decide,
    (c6_phase_gating [("X-RateLimit-Limit", "10")] {}).2.2
      [some Phase.RequestHeaders, some Phase.RequestBody] [] (by decide)⟩

theorem apply_no_deferred (t : Task) (ctx : ReqRespCtx)
    (hv : ∀ v ∈ ctx.test_predicate_values, v ≠ PendingValue.Resolved true) :
    ∀ o ctx1, t.apply ctx = .ok (o, ctx1) →
      (∀ k pt, o ≠ .Deferred k pt) ∧
      (∀ v ∈ ctx1.test_predicate_values, v ≠ PendingValue.Resolved true) := by
  intro o ctx1 h
  cases t with
  | RLTask pr s a d =>
      simp only [Task.apply, Predicate.eval,
        ReqRespCtx.test_pop_predicate_value] at h
      cases hg : ctx.test_predicate_values.getLast? with
      | none => rw [hg] at h; cases h
      | some v =>
          have hvne := hv v (mem_of_getLast?_eq hg)
          have hdrop : ∀ w ∈ ctx.test_predicate_values.dropLast,
              w ≠ PendingValue.Resolved true :=
            fun w hw => hv w ((List.dropLast_sublist _).subset hw)
          rw [hg] at h
          cases v with
          | Resolved b =>
              cases b with
              | true => exact absurd rfl hvne
              | false =>
                  simp only [Bool.false_eq_true, if_false, Except.ok.injEq,
                    Prod.mk.injEq] at h
                  obtain ⟨ho, hc⟩ := h
                  subst ho
                  subst hc
                  exact ⟨fun k pt => by simp, hdrop⟩
          | Pending =>
              simp only [Except.ok.injEq, Prod.mk.injEq] at h
              obtain ⟨ho, hc⟩ := h
              subst ho
              subst hc
              exact ⟨fun k pt => by simp, hdrop⟩
  | AddResponseHeadersTask hs =>
      simp only [Task.apply] at h
      split at h <;>
        · simp only [Except.ok.injEq, Prod.mk.injEq] at h
          obtain ⟨ho, hc⟩ := h
          subst ho
          subst hc
          exact ⟨fun k pt => by simp, hv⟩
  | TooManyRequestsTask =>
      simp only [Task.apply, Except.ok.injEq, Prod.mk.injEq] at h
      obtain ⟨ho, hc⟩ := h
      subst ho
      subst hc
      exact ⟨fun k pt => by simp, hv⟩

theorem evalLoop_no_dispatch :
    ∀ (tasks : List Task) (ctx : ReqRespCtx) (pending : PendingMap)
      (acc : List Task),
      (∀ v ∈ ctx.test_predicate_values, v ≠ PendingValue.Resolved true) →
      ∀ ctx1 pending1 todos1,
        evalLoop tasks ctx pending acc = .ok (ctx1, pending1, todos1) →
        pending1 = pending := by
  intro tasks
  induction tasks with
  | nil =>
      intro ctx pending acc _ ctx1 pending1 todos1 h
      cases h
      rfl
  | cons t rest ih =>
      intro ctx pending acc hv ctx1 pending1 todos1 h
      cases ha : t.apply ctx with
      | error e => simp only [evalLoop, ha] at h; cases h
      | ok res =>
          obtain ⟨o, ctx2⟩ := res
          obtain ⟨hnd, hv2⟩ := apply_no_deferred t ctx hv o ctx2 ha
          cases o with
          | Done =>
              simp only [evalLoop, ha] at h
              exact ih ctx2 pending acc hv2 ctx1 pending1 todos1 h
          | Deferred k pt => exact absurd rfl (hnd k pt)
          | Pending a2 =>
              simp only [evalLoop, ha] at h
              exact ih ctx2 pending (acc ++ [a2]) hv2 ctx1 pending1 todos1 h

/-- Claim C7 counterexample: a queue holding a single mutate-response
task and no conditional-dispatch task at all re-queues itself outside
the ResponseHeaders phase, so the first evaluate pass reports Active,
not Quiescent. -/
theorem c7_not_quiescent :
    pipeC7.eval = .ok (some pipeC7) ∧ pipeC7.eval ≠ .ok none := by
  refine ⟨rfl, fun h => ?_⟩
  rw [show pipeC7.eval = .ok (some pipeC7) from rfl] at h
  cases h

/-- Claim C7 (amended): when no scripted predicate value is
Resolved(true) — so no conditional-dispatch task can resolve true — a
successful first evaluate pass creates no pending calls: the registry
it ends with is exactly the registry it started with, and in
particular a Quiescent report implies the registry was empty already;
the pass need not report Quiescent, because tasks may re-queue
themselves as Pending. -/
theorem c7_no_dispatch_no_pending (p : Pipeline)
    (hv : ∀ v ∈ p.ctx.test_predicate_values, v ≠ PendingValue.Resolved true) :
    (∀ p1, p.eval = .ok (some p1) → p1.pending_tasks = p.pending_tasks) ∧
    (p.eval = .ok none → p.pending_tasks = []) := by
  constructor
  · intro p1 h
    unfold Pipeline.eval at h
    cases hl : evalLoop p.todos p.ctx p.pending_tasks [] with
    | error e => rw [hl] at h; cases h
    | ok s =>
        obtain ⟨ctx1, pending1, todos1⟩ := s
        have hpend := evalLoop_no_dispatch p.todos p.ctx p.pending_tasks [] hv
          ctx1 pending1 todos1 hl
        rw [hl] at h
        by_cases hq : (pending1.isEmpty && todos1.isEmpty) = true
        · simp only [hq, if_true] at h
          cases h
        · simp only [hq, if_false] at h
          cases h
          exact hpend
  · intro h
    unfold Pipeline.eval at h
    cases hl : evalLoop p.todos p.ctx p.pending_tasks [] with
    | error e => rw [hl] at h; cases h
    | ok s =>
        obtain ⟨ctx1, pending1, todos1⟩ := s
        have hpend := evalLoop_no_dispatch p.todos p.ctx p.pending_tasks [] hv
          ctx1 pending1 todos1 hl
        rw [hl] at h
        by_cases hq : (pending1.isEmpty && todos1.isEmpty) = true
        · have hempty : pending1.isEmpty = true := by
            cases hp : pending1.isEmpty <;> simp [hp] at hq ⊢
          rw [← hpend]
          exact List.isEmpty_iff.mp hempty
        · simp only [hq, if_false] at h
          cases h

theorem c7_no_dispatch_witness :
    (∀ v ∈ pipeW7.ctx.test_predicate_values, v ≠ PendingValue.Resolved true) ∧
    pipeW7.pending_tasks = [] :=
  ⟨by decide, (c7_no_dispatch_no_pending pipeW7 (by decide)).2 rfl⟩

/-- Claim C8 counterexample: predicate evaluation has a side effect on
the context — it consumes the scripted value, leaving a different
context — and re-evaluating on the drained context panics, so it is not
safely re-evaluable arbitrarily many times. -/
theorem c8_eval_mutates :
    Predicate.eval ⟨⟩ ctxC8 = .ok (.Resolved true, ({} : ReqRespCtx)) ∧
    ({} : ReqRespCtx) ≠ ctxC8 ∧
    Predicate.eval ⟨⟩ ({} : ReqRespCtx) = .error .predicateEmpty :=
  ⟨rfl, by decide, rfl⟩

/-- Claim C8 (amended): predicate evaluation consumes one scripted
value from the context: with a nonempty script it returns the last
value and removes it from the context, leaving every other field
unchanged, and with an empty script it panics; it is therefore safely
re-evaluable only while scripted values remain. -/
theorem c8_predicate_consumes (pr : Predicate) (ctx : ReqRespCtx) :
    (∀ vs v, ctx.test_predicate_values = vs ++ [v] →
      pr.eval ctx = .ok (v, { ctx with test_predicate_values := vs })) ∧
    (ctx.test_predicate_values = [] → pr.eval ctx = .error .predicateEmpty) := by
  constructor
  · intro vs v hvals
    simp [Predicate.eval, ReqRespCtx.test_pop_predicate_value, hvals,
      List.getLast?_concat]
  · intro hvals
    simp [Predicate.eval, ReqRespCtx.test_pop_predicate_value, hvals]

theorem c8_predicate_consumes_witness :
    ctxC8.test_predicate_values = [] ++ [PendingValue.Resolved true] ∧
    Predicate.eval ⟨⟩ ctxC8 =
      .ok (.Resolved true, { ctxC8 with test_predicate_values := [] }) :=
  ⟨rfl, (c8_predicate_consumes ⟨⟩ ctxC8).1 [] (.Resolved true) rfl⟩

/-- Claim C9 counterexample: a mutate-response task applying during
ResponseHeaders does not merge — the header recorded in the context
before the task applies is absent afterwards. -/
theorem c9_headers_overwritten :
    (Task.AddResponseHeadersTask [("c", "d")]).apply ctxC9 =
      .ok (.Done, { ctxC9 with response_headers := [("c", "d")] }) ∧
    ("a", "b") ∈ ctxC9.response_headers ∧
    ("a", "b") ∉ ({ ctxC9 with
      response_headers := [("c", "d")] }).response_headers :=
  ⟨rfl, by decide, by decide⟩

/-- Claim C9 (amended): when a mutate-response task applies during the
ResponseHeaders phase it replaces the accumulated response-header list
of the transaction context with its own headers; mutations recorded
earlier are discarded, not merged. -/
theorem c9_headers_replace (headers : List (String × String))
    (ctx : ReqRespCtx)
    (hph : ctx.test_current_phase = some Phase.ResponseHeaders) :
    (Task.AddResponseHeadersTask headers).apply ctx =
      .ok (.Done, { ctx with response_headers := headers }) := by
  simp [Task.apply, hph]

theorem c9_headers_replace_witness :
    ctxC9.test_current_phase = some Phase.ResponseHeaders ∧
    (Task.AddResponseHeadersTask [("c", "d")]).apply ctxC9 =
      .ok (.Done, { ctxC9 with response_headers := [("c", "d")] }) :=
  ⟨rfl, c9_headers_replace [("c", "d")] ctxC9 rfl⟩

theorem process_response_fresh (pt : PendingTask) (r : List Nat) (a : Task)
    (hfresh : pt.freshTokens) (h : pt.process_response r = some a) :
    a.FreshTokens := by
  obtain ⟨hs, ha2, hd⟩ := hfresh
  unfold PendingTask.process_response at h
  split at h
  · cases h; exact hd
  · cases hx : pt.allow_task with
    | some t => rw [hx] at h; dsimp only at h; cases h; exact ha2 _ hx
    | none => rw [hx] at h; dsimp only at h; cases h

theorem apply_fresh (t : Task) (ctx : ReqRespCtx) (hfresh : t.FreshTokens)
    (o : TaskOutcome) (ctx1 : ReqRespCtx) (h : t.apply ctx = .ok (o, ctx1)) :
    FreshOutcome ctx ctx1 o := by
  cases hfresh with
  | rl pr s a d hs ha hd =>
      have hs2 : ∀ c, s.dispatch c = c.next_token_id := hs
      simp only [Task.apply, Predicate.eval,
        ReqRespCtx.test_pop_predicate_value] at h
      cases hg : ctx.test_predicate_values.getLast? with
      | none => rw [hg] at h; cases h
      | some v =>
          cases v with
          | Resolved b =>
              rw [hg] at h
              dsimp only at h
              cases b with
              | true =>
                  rw [if_pos rfl] at h
                  rw [hs2] at h
                  dsimp only [ReqRespCtx.next_token_id] at h
                  injection h with h1
                  injection h1 with h2 h3
                  subst h2
                  subst h3
                  exact ⟨rfl, rfl, hs, ha, hd⟩
              | false =>
                  rw [if_neg (by simp)] at h
                  injection h with h1
                  injection h1 with h2 h3
                  subst h2
                  subst h3
                  exact rfl
          | Pending =>
              rw [hg] at h
              dsimp only at h
              injection h with h1
              injection h1 with h2 h3
              subst h2
              subst h3
              exact ⟨rfl, Task.FreshTokens.rl pr s a d hs ha hd⟩
  | addHeaders headers =>
      simp only [Task.apply] at h
      split at h
      · injection h with h1
        injection h1 with h2 h3
        subst h2
        subst h3
        exact rfl
      · injection h with h1
        injection h1 with h2 h3
        subst h2
        subst h3
        exact ⟨rfl, Task.FreshTokens.addHeaders headers⟩
  | tooMany =>
      simp only [Task.apply] at h
      injection h with h1
      injection h1 with h2 h3
      subst h2
      subst h3
      exact rfl

theorem evalLoop_fresh :
    ∀ (tasks : List Task) (ctx : ReqRespCtx) (pending : PendingMap)
      (acc : List Task),
      (∀ t ∈ tasks, t.FreshTokens) →
      (∀ kv ∈ pending, kv.1 ≤ ctx.test_token_id ∧ kv.2.freshTokens) →
      (∀ t ∈ acc, t.FreshTokens) →
      (∀ tok, evalLoop tasks ctx pending acc ≠ .error (.duplicateToken tok)) ∧
      (∀ ctx1 pending1 todos1,
        evalLoop tasks ctx pending acc = .ok (ctx1, pending1, todos1) →
        (∀ kv ∈ pending1, kv.1 ≤ ctx1.test_token_id ∧ kv.2.freshTokens) ∧
        (∀ t ∈ todos1, t.FreshTokens) ∧
        ctx.test_token_id ≤ ctx1.test_token_id) := by
  intro tasks
  induction tasks with
  | nil =>
      intro ctx pending acc _ hpend hacc
      refine ⟨(fun tok h => by simp [evalLoop] at h), ?_⟩
      intro ctx1 pending1 todos1 h
      cases h
      exact ⟨hpend, hacc, le_refl _⟩
  | cons t rest ih =>
      intro ctx pending acc htasks hpend hacc
      have hthead : t.FreshTokens := htasks t (by simp)
      have htrest : ∀ t2 ∈ rest, t2.FreshTokens :=
        fun t2 h2 => htasks t2 (by simp [h2])
      cases ha : t.apply ctx with
      | error e =>
          have he := apply_error t ctx e ha
          subst he
          constructor
          · intro tok h
            simp only [evalLoop, ha] at h
            cases h
          · intro ctx1 pending1 todos1 h
            simp only [evalLoop, ha] at h
            cases h
      | ok res =>
          obtain ⟨o, ctx2⟩ := res
          have happ := apply_fresh t ctx hthead o ctx2 ha
          cases o with
          | Done =>
              have htid : ctx2.test_token_id = ctx.test_token_id := happ
              have hpend2 : ∀ kv ∈ pending,
                  kv.1 ≤ ctx2.test_token_id ∧ kv.2.freshTokens := by
                rw [htid]
                exact hpend
              obtain ⟨hne, hok⟩ := ih ctx2 pending acc htrest hpend2 hacc
              constructor
              · intro tok h
                simp only [evalLoop, ha] at h
                exact hne tok h
              · intro ctx1 pending1 todos1 h
                simp only [evalLoop, ha] at h
                obtain ⟨q1, q2, q3⟩ := hok ctx1 pending1 todos1 h
                exact ⟨q1, q2, htid ▸ q3⟩
          | Pending a2 =>
              have happ2 : ctx2.test_token_id = ctx.test_token_id ∧
                  a2.FreshTokens := happ
              obtain ⟨htid, hfr⟩ := happ2
              have hpend2 : ∀ kv ∈ pending,
                  kv.1 ≤ ctx2.test_token_id ∧ kv.2.freshTokens := by
                rw [htid]
                exact hpend
              have hacc2 : ∀ t2 ∈ acc ++ [a2], t2.FreshTokens := by
                intro t2 h2
                rcases List.mem_append.mp h2 with h2 | h2
                · exact hacc t2 h2
                · simp at h2
                  subst h2
                  exact hfr
              obtain ⟨hne, hok⟩ :=
                ih ctx2 pending (acc ++ [a2]) htrest hpend2 hacc2
              constructor
              · intro tok h
                simp only [evalLoop, ha] at h
                exact hne tok h
              · intro ctx1 pending1 todos1 h
                simp only [evalLoop, ha] at h
                obtain ⟨q1, q2, q3⟩ := hok ctx1 pending1 todos1 h
                exact ⟨q1, q2, htid ▸ q3⟩
          | Deferred k pt =>
              have happ2 : ctx2.test_token_id = ctx.test_token_id + 1 ∧
                  k = ctx.test_token_id + 1 ∧ pt.freshTokens := happ
              obtain ⟨htid, hk, hptfr⟩ := happ2
              have hknot : mapFind pending k = none := by
                refine mapFind_eq_none pending k fun kv hkv => ?_
                have hle := (hpend kv hkv).1
                omega
              have hpend2 : ∀ kv ∈ pending ++ [(k, pt)],
                  kv.1 ≤ ctx2.test_token_id ∧ kv.2.freshTokens := by
                intro kv hkv
                rcases List.mem_append.mp hkv with hkv | hkv
                · obtain ⟨h1, h2⟩ := hpend kv hkv
                  exact ⟨by omega, h2⟩
                · simp at hkv
                  subst hkv
                  exact ⟨by omega, hptfr⟩
              obtain ⟨hne, hok⟩ :=
                ih ctx2 (pending ++ [(k, pt)]) acc htrest hpend2 hacc
              constructor
              · intro tok h
                simp only [evalLoop, ha, mapInsert_fst, hknot,
                  Option.isSome_none, Bool.false_eq_true, if_false,
                  mapInsert_snd_of_find_none pending k pt hknot] at h
                exact hne tok h
              · intro ctx1 pending1 todos1 h
                simp only [evalLoop, ha, mapInsert_fst, hknot,
                  Option.isSome_none, Bool.false_eq_true, if_false,
                  mapInsert_snd_of_find_none pending k pt hknot] at h
                obtain ⟨q1, q2, q3⟩ := hok ctx1 pending1 todos1 h
                exact ⟨q1, q2, by omega⟩

theorem eval_fresh (p : Pipeline) (hinv : PipelineInv p) :
    (∀ tok, p.eval ≠ .error (.duplicateToken tok)) ∧
    (∀ p1, p.eval = .ok (some p1) → PipelineInv p1) := by
  obtain ⟨hpend, htasks⟩ := hinv
  obtain ⟨hne, hok⟩ :=
    evalLoop_fresh p.todos p.ctx p.pending_tasks [] htasks hpend (by simp)
  constructor
  · intro tok h
    unfold Pipeline.eval at h
    cases hl : evalLoop p.todos p.ctx p.pending_tasks [] with
    | error e =>
        rw [hl] at h
        cases h
        exact hne tok hl
    | ok s =>
        obtain ⟨ctx1, pending1, todos1⟩ := s
        rw [hl] at h
        by_cases hq : (pending1.isEmpty && todos1.isEmpty) = true <;>
          simp [hq] at h
  · intro p1 h
    unfold Pipeline.eval at h
    cases hl : evalLoop p.todos p.ctx p.pending_tasks [] with
    | error e => rw [hl] at h; cases h
    | ok s =>
        obtain ⟨ctx1, pending1, todos1⟩ := s
        rw [hl] at h
        obtain ⟨q1, q2, _⟩ := hok ctx1 pending1 todos1 hl
        by_cases hq : (pending1.isEmpty && todos1.isEmpty) = true
        · simp only [hq, if_true] at h
          cases h
        · simp only [hq, if_false] at h
          cases h
          exact ⟨q1, q2⟩

theorem digest_fresh (p : Pipeline) (tok : Nat) (r : List Nat)
    (hinv : PipelineInv p) :
    (∀ tok2, p.digest tok r ≠ .error (.duplicateToken tok2)) ∧
    (∀ p1, p.digest tok r = .ok p1 → PipelineInv p1) := by
  obtain ⟨hpend, htasks⟩ := hinv
  unfold Pipeline.digest
  rw [mapRemove_fst, mapRemove_snd]
  cases hf : mapFind p.pending_tasks tok with
  | none =>
      exact ⟨(fun tok2 h => by cases h), (fun p1 h => by cases h)⟩
  | some pt =>
      have hptfr : pt.freshTokens :=
        (hpend (tok, pt) (mapFind_some_mem p.pending_tasks tok pt hf)).2
      have hpendE : ∀ kv ∈ mapErase p.pending_tasks tok,
          kv.1 ≤ p.ctx.test_token_id ∧ kv.2.freshTokens :=
        fun kv h => hpend kv (mapErase_mem p.pending_tasks tok kv h)
      dsimp only
      unfold digestFollowUp
      cases hpr : pt.process_response r with
      | none =>
          refine ⟨(fun tok2 h => by cases h), fun p1 h => ?_⟩
          cases h
          exact ⟨hpendE, htasks⟩
      | some a =>
          have hafr : a.FreshTokens := process_response_fresh pt r a hptfr hpr
          dsimp only
          cases ha : a.apply p.ctx with
          | error e =>
              have he := apply_error a p.ctx e ha
              subst he
              exact ⟨(fun tok2 h => by cases h), (fun p1 h => by cases h)⟩
          | ok res =>
              obtain ⟨o, ctx1⟩ := res
              have happ := apply_fresh a p.ctx hafr o ctx1 ha
              cases o with
              | Done =>
                  have htid : ctx1.test_token_id = p.ctx.test_token_id := happ
                  refine ⟨(fun tok2 h => by cases h), fun p1 h => ?_⟩
                  cases h
                  simp only [PipelineInv]
                  refine ⟨?_, htasks⟩
                  intro kv hkv
                  obtain ⟨h1, h2⟩ := hpendE kv hkv
                  exact ⟨by omega, h2⟩
              | Pending a1 =>
                  have happ2 : ctx1.test_token_id = p.ctx.test_token_id ∧
                      a1.FreshTokens := happ
                  obtain ⟨htid, hfr1⟩ := happ2
                  refine ⟨(fun tok2 h => by cases h), fun p1 h => ?_⟩
                  cases h
                  simp only [PipelineInv]
                  refine ⟨?_, ?_⟩
                  · intro kv hkv
                    obtain ⟨h1, h2⟩ := hpendE kv hkv
                    exact ⟨by omega, h2⟩
                  · intro t2 h2
                    rcases List.mem_append.mp h2 with h2 | h2
                    · exact htasks t2 h2
                    · simp at h2
                      subst h2
                      exact hfr1
              | Deferred k pt2 =>
                  have happ2 : ctx1.test_token_id = p.ctx.test_token_id + 1 ∧
                      k = p.ctx.test_token_id + 1 ∧ pt2.freshTokens := happ
                  obtain ⟨htid, hk, hptfr2⟩ := happ2
                  have hknot : mapFind (mapErase p.pending_tasks tok) k = none := by
                    refine mapFind_eq_none _ k fun kv hkv => ?_
                    have hle := (hpendE kv hkv).1
                    omega
                  simp only [mapInsert_fst, hknot, Option.isSome_none,
                    Bool.false_eq_true, if_false,
                    mapInsert_snd_of_find_none _ _ _ hknot]
                  refine ⟨(fun tok2 h => by cases h), fun p1 h => ?_⟩
                  cases h
                  simp only [PipelineInv]
                  refine ⟨?_, htasks⟩
                  intro kv hkv
                  rcases List.mem_append.mp hkv with hkv | hkv
                  · obtain ⟨h1, h2⟩ := hpendE kv hkv
                    exact ⟨by omega, h2⟩
                  · simp at hkv
                    subst hkv
                    exact ⟨by omega, hptfr2⟩

/-- Claim C10: token allocation returns strictly increasing integers —
each call yields the previous counter plus one, and the first call on a
default context yields 1 — and for every pipeline in which all services
allocate tokens from the context counter and all registered tokens are
at most the counter, a fresh dispatch can never collide with a
registered token: neither evaluate nor digest can fault on
duplicate-token insertion, and both preserve that invariant. -/
theorem c10_fresh_tokens :
    (∀ ctx : ReqRespCtx, (ctx.next_token_id).1 = ctx.test_token_id + 1 ∧
      (ctx.next_token_id).2.test_token_id = ctx.test_token_id + 1) ∧
    ((({} : ReqRespCtx).next_token_id).1 = 1) ∧
    (∀ p : Pipeline, PipelineInv p →
      (∀ tok, p.eval ≠ .error (.duplicateToken tok)) ∧
      (∀ p1, p.eval = .ok (some p1) → PipelineInv p1) ∧
      (∀ tok r tok2, p.digest tok r ≠ .error (.duplicateToken tok2)) ∧
      (∀ tok r p1, p.digest tok r = .ok p1 → PipelineInv p1)) := by
  refine ⟨fun ctx => ⟨rfl, rfl⟩, rfl, fun p hinv => ?_⟩
  obtain ⟨he1, he2⟩ := eval_fresh p hinv
  exact ⟨he1, he2, fun tok r tok2 => (digest_fresh p tok r hinv).1 tok2,
    fun tok r p1 h => (digest_fresh p tok r hinv).2 p1 h⟩

theorem c10_fresh_tokens_witness :
    PipelineInv pipeW10 ∧
    (∀ tok, pipeW10.eval ≠ .error (.duplicateToken tok)) := by
  have hinv : PipelineInv pipeW10 := by
    constructor
    · intro kv hkv
      simp [pipeW10] at hkv
    · intro t ht
      simp only [pipeW10, List.mem_singleton] at ht
      subst ht
      exact Task.FreshTokens.rl ⟨⟩ FakeService none .TooManyRequestsTask
        (fun c => rfl) (fun t2 ht2 => by cases ht2) Task.FreshTokens.tooMany
  exact ⟨hinv, (c10_fresh_tokens.2.2 pipeW10 hinv).1⟩

/-- Claim C1: one call to evaluate attempts every task that was in the
work queue at the start of the pass exactly once, in queue order; Done
outcomes are discarded, each Deferred outcome registers its token and
continuation (duplicate tokens are a fatal fault), and the Pending
outcomes, in their original relative order, become the entire new work
queue; the pass reports Quiescent exactly when both the resulting queue
and the registry are empty. Stated as equality with the
specification-side pass. -/
theorem c1_eval_matches_spec (p : Pipeline) : p.eval = evalSpec p := by
  unfold Pipeline.eval evalSpec
  rw [evalLoop_eq_foldlM]
  cases h : List.foldlM stepSpec (p.ctx, p.pending_tasks, []) p.todos with
  | error e => rfl
  | ok s =>
      obtain ⟨ctx, pending, todos⟩ := s
      by_cases hq : (pending.isEmpty && todos.isEmpty) = true
      · simp [hq]
      · simp [hq]

end Ada
